import Mathlib

/-!
Shallow embedding of the analytics subsystem of `src/convex/stats.ts` and of
the raw-markdown Netlify function `src/netlify/functions/raw.js`.

The Convex document store is modelled as explicit lists kept in insertion
order (Convex `_creationTime` order).  Document ids are natural numbers
handed out by a `nextId` counter.  The three `TableAggregate` components are
modelled by the lists of document ids that have been inserted into them
(`insertIfDoesNotExist` is keyed by document identity).  `Date.now()` becomes
an explicit `now : Int` argument (milliseconds).
-/

/-- Dedup window: 30 minutes in milliseconds (`DEDUP_WINDOW_MS`). -/
def DEDUP_WINDOW_MS : Int := 30 * 60 * 1000

/-- Session timeout: 2 minutes in milliseconds (`SESSION_TIMEOUT_MS`). -/
def SESSION_TIMEOUT_MS : Int := 2 * 60 * 1000

/-- Heartbeat dedup window: 10 seconds (`HEARTBEAT_DEDUP_MS`). -/
def HEARTBEAT_DEDUP_MS : Int := 10 * 1000

/-- A row of the `pageViews` table: `{path, pageType, sessionId, timestamp}`
plus its document id. -/
structure PageViewEvent where
  id : Nat
  path : String
  pageType : String
  sessionId : String
  timestamp : Int
deriving DecidableEq, Repr

/-- A row of the `activeSessions` table: `{sessionId, currentPath, lastSeen}`
plus its document id. -/
structure ActiveSession where
  id : Nat
  sessionId : String
  currentPath : String
  lastSeen : Int
deriving DecidableEq, Repr

/-- The whole store: the two tables (in insertion order), the three aggregate
components (as the sets, kept as lists, of inserted document ids) and the id
counter. -/
structure Store where
  pageViews : List PageViewEvent
  activeSessions : List ActiveSession
  aggPageViewsByPath : List Nat
  aggTotalPageViews : List Nat
  aggUniqueVisitors : List Nat
  nextId : Nat
deriving DecidableEq, Repr

/-- The empty deployment. -/
def Store.empty : Store :=
  { pageViews := []
    activeSessions := []
    aggPageViewsByPath := []
    aggTotalPageViews := []
    aggUniqueVisitors := []
    nextId := 0 }

/-- `aggregate.insertIfDoesNotExist`: insert a document id into an aggregate
unless it is already present. -/
def insertIfAbsent (l : List Nat) (i : Nat) : List Nat :=
  if i ∈ l then l else l ++ [i]

/-- The `by_session_path` index query of `recordPageView`:
`.eq("sessionId", sid).eq("path", path).order("desc").first()` — the most
recently created event of the session on the path. -/
def recentView (s : Store) (sid path : String) : Option PageViewEvent :=
  s.pageViews.reverse.find? (fun e => e.sessionId == sid && e.path == path)

/-- The sessionIds of a list of events, in order. -/
def sessionsOf (l : List PageViewEvent) : List String :=
  l.map (·.sessionId)

/-- The insertion path of `recordPageView` (lines 86-110): determine whether
the session has any prior event (`existingSessionView` via the
`by_session_path` index on `sessionId` alone), insert the event row, update
the three aggregates — `uniqueVisitors` only for a new session. -/
def insertView (now : Int) (path pageType sid : String) (s : Store) : Store :=
  let isNewVisitor := (s.pageViews.find? (fun e => e.sessionId == sid)).isNone
  let doc : PageViewEvent := ⟨s.nextId, path, pageType, sid, now⟩
  { s with
    pageViews := s.pageViews ++ [doc]
    nextId := s.nextId + 1
    aggPageViewsByPath := insertIfAbsent s.aggPageViewsByPath doc.id
    aggTotalPageViews := insertIfAbsent s.aggTotalPageViews doc.id
    aggUniqueVisitors :=
      if isNewVisitor then insertIfAbsent s.aggUniqueVisitors doc.id
      else s.aggUniqueVisitors }

/-- `recordPageView` (src/convex/stats.ts, lines 61-114).  Looks up the most
recent event for `(sessionId, path)`; returns unchanged when it is within the
dedup window; otherwise runs the insertion path. -/
def recordPageView (now : Int) (path pageType sid : String) (s : Store) : Store :=
  let dedupCutoff := now - DEDUP_WINDOW_MS
  match recentView s sid path with
  | some e => if e.timestamp > dedupCutoff then s else insertView now path pageType sid s
  | none => insertView now path pageType sid s

/-- The `by_sessionId` index query of `heartbeat`: the (unique) row of the
session, found in creation order. -/
def findSession (s : Store) (sid : String) : Option ActiveSession :=
  s.activeSessions.find? (fun r => r.sessionId == sid)

/-- `heartbeat` (src/convex/stats.ts, lines 121-162).  Debounced upsert of the
session row: skip when same path and written less than 10 s ago; else patch
the row in place, or insert a fresh row when none exists. -/
def heartbeat (now : Int) (sid currentPath : String) (s : Store) : Store :=
  match findSession s sid with
  | some r =>
    if r.currentPath = currentPath ∧ now - r.lastSeen < HEARTBEAT_DEDUP_MS then s
    else
      { s with
        activeSessions := s.activeSessions.map (fun x =>
          if x.id = r.id then { x with currentPath := currentPath, lastSeen := now } else x) }
  | none =>
    { s with
      activeSessions := s.activeSessions ++ [⟨s.nextId, sid, currentPath, now⟩]
      nextId := s.nextId + 1 }

/-- The `by_lastSeen` index query of `getStats`: sessions with
`lastSeen > now - SESSION_TIMEOUT_MS`. -/
def activeSessionsAt (now : Int) (s : Store) : List ActiveSession :=
  s.activeSessions.filter (fun r => decide (r.lastSeen > now - SESSION_TIMEOUT_MS))

/-- The `by_timestamp` index query `.order("asc").first()`: the event with the
least timestamp, the earliest created on ties. -/
def firstByTimestamp : List PageViewEvent → Option PageViewEvent
  | [] => none
  | e :: rest =>
    match firstByTimestamp rest with
    | none => some e
    | some m => if e.timestamp ≤ m.timestamp then some e else some m

/-- The fields of the `getStats` result that the analytics core computes
(title/page-type joins against posts and pages are out of scope). -/
structure StatsResult where
  activeVisitors : Nat
  totalPageViews : Nat
  uniqueVisitors : Nat
  trackingSince : Option Int
deriving DecidableEq, Repr

/-- `getStats` (src/convex/stats.ts, lines 169-297), restricted to the
analytics fields: active-session count, full-scan total, full-scan distinct
session count (`new Set(...).size`), earliest event timestamp. -/
def getStats (now : Int) (s : Store) : StatsResult :=
  { activeVisitors := (activeSessionsAt now s).length
    totalPageViews := s.pageViews.length
    uniqueVisitors := (s.pageViews.map (·.sessionId)).dedup.length
    trackingSince := (firstByTimestamp s.pageViews).map (·.timestamp) }

/-- `cleanupStaleSessions` (src/convex/stats.ts, lines 303-320).  Deletes the
rows with `lastSeen < now - SESSION_TIMEOUT_MS`; returns how many. -/
def cleanupStaleSessions (now : Int) (s : Store) : Nat × Store :=
  let cutoff := now - SESSION_TIMEOUT_MS
  let stale := s.activeSessions.filter (fun r => decide (r.lastSeen < cutoff))
  (stale.length,
    { s with activeSessions := s.activeSessions.filter (fun r => ! decide (r.lastSeen < cutoff)) })

/-- The body of `backfillAggregates`'s loop over all page views, threading the
`seenSessions` set and the `uniqueCount` counter. -/
def backfillLoop : List PageViewEvent → List String → Store → Store × Nat
  | [], _, s => (s, 0)
  | doc :: rest, seen, s =>
    let s1 :=
      { s with
        aggPageViewsByPath := insertIfAbsent s.aggPageViewsByPath doc.id
        aggTotalPageViews := insertIfAbsent s.aggTotalPageViews doc.id }
    if doc.sessionId ∈ seen then backfillLoop rest seen s1
    else
      let s2 := { s1 with aggUniqueVisitors := insertIfAbsent s1.aggUniqueVisitors doc.id }
      let r := backfillLoop rest (doc.sessionId :: seen) s2
      (r.1, r.2 + 1)

/-- `backfillAggregates` (src/convex/stats.ts, lines 327-362).  Re-derives the
three aggregates from the full event log with insert-if-absent; returns the
new store plus `{processed, uniqueSessions}`. -/
def backfillAggregates (s : Store) : Store × Nat × Nat :=
  let r := backfillLoop s.pageViews [] s
  (r.1, s.pageViews.length, r.2)

/-- One call of the analytics API, carrying its `Date.now()` value. -/
inductive Op where
  | record (now : Int) (path pageType sessionId : String)
  | hb (now : Int) (sessionId currentPath : String)
  | stats (now : Int)
  | cleanup (now : Int)
  | backfill (now : Int)
deriving DecidableEq, Repr

/-- The clock value a call runs at. -/
def Op.time : Op → Int
  | .record n _ _ _ => n
  | .hb n _ _ => n
  | .stats n => n
  | .cleanup n => n
  | .backfill n => n

/-- The state transition of a call (queries leave the store unchanged). -/
def Op.apply : Op → Store → Store
  | .record n p pt sid, s => recordPageView n p pt sid s
  | .hb n sid p, s => heartbeat n sid p s
  | .stats _, s => s
  | .cleanup n, s => (cleanupStaleSessions n s).2
  | .backfill _, s => (backfillAggregates s).1

/-- States reachable from the empty store by calls with a non-decreasing
clock; `Reachable c s` also records the clock value `c` of the last call. -/
inductive Reachable : Int → Store → Prop where
  | init (c : Int) : Reachable c Store.empty
  | step {c : Int} {s : Store} (op : Op) :
      Reachable c s → c ≤ op.time → Reachable op.time (op.apply s)

/-- States reachable from the empty store by `recordPageView` calls alone. -/
inductive RecordReachable : Store → Prop where
  | init : RecordReachable Store.empty
  | step {s : Store} (now : Int) (path pageType sid : String) :
      RecordReachable s → RecordReachable (recordPageView now path pageType sid s)

/-! ## The raw-markdown Netlify function (`src/netlify/functions/raw.js`)

The filesystem under `public/raw/` and `dist/raw/` is modelled by two maps
from filename to `Option String` (file contents when the file exists and is
readable). -/

/-- JS `String.prototype.trim()`, modelled on the character list: drop
whitespace from both ends. -/
def jsTrim (l : List Char) : List Char :=
  ((l.dropWhile Char.isWhitespace).reverse.dropWhile Char.isWhitespace).reverse

/-- JS `a.endsWith(b)`, modelled on character lists. -/
def jsEndsWith (l suffix : List Char) : Bool :=
  l.reverse.take suffix.length == suffix.reverse

/-- `normalizeSlug` of raw.js: `(input || "").trim().replace(/^\/+|\/+$/g, "")`
— trim whitespace, then strip every leading and trailing slash. -/
def normalizeSlug (input : Option String) : String :=
  let t := jsTrim (input.getD "").toList
  String.mk (((t.dropWhile (· = '/')).reverse.dropWhile (· = '/')).reverse)

/-- `tryRead` of raw.js: `null` when the file does not exist, is unreadable,
or is empty after trimming (`!body || body.trim().length === 0`); its
contents otherwise. -/
def tryRead (c : Option String) : Option String :=
  match c with
  | none => none
  | some body => if body = "" ∨ jsTrim body.toList = [] then none else some body

/-- Status code and body of a response of the function (headers carry no
claim-relevant data). -/
structure RawResponse where
  statusCode : Nat
  body : String
deriving DecidableEq, Repr

/-- The `.md` filename looked up for a normalized slug:
`slug.endsWith(".md") ? slug : slug + ".md"`. -/
def mdFilename (slug : String) : String :=
  if jsEndsWith slug.toList (".md").toList then slug else slug ++ ".md"

/-- The raw.js `handler`: 400 on an empty normalized slug; otherwise try
`public/raw/<slug>.md` then `dist/raw/<slug>.md`; 200 with the first readable
non-empty body, else 404. -/
def handler (slugRaw : Option String) (publicRaw distRaw : String → Option String) :
    RawResponse :=
  let slug := normalizeSlug slugRaw
  if slug = "" then ⟨400, "missing slug"⟩
  else
    let filename := mdFilename slug
    match tryRead (publicRaw filename) with
    | some body => ⟨200, body⟩
    | none =>
      match tryRead (distRaw filename) with
      | some body => ⟨200, body⟩
      | none => ⟨404, "not found: " ++ filename⟩

/-! ## Generic list lemmas -/

theorem length_filter_add_length_filter_not {α : Type} (l : List α) (p : α → Bool) :
    (l.filter p).length + (l.filter (fun r => ! p r)).length = l.length := by
  induction l with
  | nil => rfl
  | cons x xs ih => cases hp : p x <;> simp [List.filter_cons, hp] <;> omega

theorem insertIfAbsent_of_mem {l : List Nat} {i : Nat} (h : i ∈ l) :
    insertIfAbsent l i = l := by
  simp [insertIfAbsent, h]

theorem mem_insertIfAbsent {l : List Nat} {i j : Nat} :
    j ∈ insertIfAbsent l i ↔ j = i ∨ j ∈ l := by
  unfold insertIfAbsent
  split
  · rename_i h
    constructor
    · exact fun hj => Or.inr hj
    · rintro (rfl | hj)
      · exact h
      · exact hj
  · simp [or_comm]

/-! ## raw.js handler -/

theorem handler_eq (slugRaw : Option String) (pub dist : String → Option String) :
    handler slugRaw pub dist =
      if normalizeSlug slugRaw = "" then ⟨400, "missing slug"⟩
      else
        match tryRead (pub (mdFilename (normalizeSlug slugRaw))) with
        | some body => ⟨200, body⟩
        | none =>
          match tryRead (dist (mdFilename (normalizeSlug slugRaw))) with
          | some body => ⟨200, body⟩
          | none => ⟨404, "not found: " ++ mdFilename (normalizeSlug slugRaw)⟩ := rfl

theorem handler_of_pub {slugRaw : Option String} {pub dist : String → Option String} {b : String}
    (h : normalizeSlug slugRaw ≠ "")
    (hp : tryRead (pub (mdFilename (normalizeSlug slugRaw))) = some b) :
    handler slugRaw pub dist = ⟨200, b⟩ := by
  rw [handler_eq, if_neg h, hp]

theorem handler_of_dist {slugRaw : Option String} {pub dist : String → Option String} {b : String}
    (h : normalizeSlug slugRaw ≠ "")
    (hp : tryRead (pub (mdFilename (normalizeSlug slugRaw))) = none)
    (hd : tryRead (dist (mdFilename (normalizeSlug slugRaw))) = some b) :
    handler slugRaw pub dist = ⟨200, b⟩ := by
  rw [handler_eq, if_neg h, hp, hd]

theorem handler_of_none {slugRaw : Option String} {pub dist : String → Option String}
    (h : normalizeSlug slugRaw ≠ "")
    (hp : tryRead (pub (mdFilename (normalizeSlug slugRaw))) = none)
    (hd : tryRead (dist (mdFilename (normalizeSlug slugRaw))) = none) :
    handler slugRaw pub dist = ⟨404, "not found: " ++ mdFilename (normalizeSlug slugRaw)⟩ := by
  rw [handler_eq, if_neg h, hp, hd]

/-- C10: the raw-markdown handler returns 400 "missing slug" exactly when the
slug is empty after trimming and slash-stripping; otherwise it serves with
status 200 the first readable non-empty file named `<slug>.md` under
`public/raw` then `dist/raw`, and 404 when neither exists. -/
theorem raw_handler_spec (slugRaw : Option String) (pub dist : String → Option String) :
    (handler slugRaw pub dist = ⟨400, "missing slug"⟩ ↔ normalizeSlug slugRaw = "")
    ∧ (normalizeSlug slugRaw ≠ "" →
        ((handler slugRaw pub dist).statusCode = 200 ↔
          tryRead (pub (mdFilename (normalizeSlug slugRaw))) ≠ none ∨
          tryRead (dist (mdFilename (normalizeSlug slugRaw))) ≠ none)
        ∧ (∀ b, tryRead (pub (mdFilename (normalizeSlug slugRaw))) = some b →
            handler slugRaw pub dist = ⟨200, b⟩)
        ∧ (∀ b, tryRead (pub (mdFilename (normalizeSlug slugRaw))) = none →
            tryRead (dist (mdFilename (normalizeSlug slugRaw))) = some b →
            handler slugRaw pub dist = ⟨200, b⟩)
        ∧ (tryRead (pub (mdFilename (normalizeSlug slugRaw))) = none →
            tryRead (dist (mdFilename (normalizeSlug slugRaw))) = none →
            handler slugRaw pub dist =
              ⟨404, "not found: " ++ mdFilename (normalizeSlug slugRaw)⟩)) := by
  by_cases h : normalizeSlug slugRaw = ""
  · refine ⟨⟨fun _ => h, fun _ => ?_⟩, fun hne => absurd h hne⟩
    rw [handler_eq, if_pos h]
  · refine ⟨⟨fun heq => ?_, fun hh => absurd hh h⟩,
      fun _ => ⟨?_, fun b hp => handler_of_pub h hp,
        fun b hp hd => handler_of_dist h hp hd,
        fun hp hd => handler_of_none h hp hd⟩⟩
    · cases hp : tryRead (pub (mdFilename (normalizeSlug slugRaw))) with
      | some b => rw [handler_of_pub h hp] at heq; simp at heq
      | none =>
        cases hd : tryRead (dist (mdFilename (normalizeSlug slugRaw))) with
        | some b => rw [handler_of_dist h hp hd] at heq; simp at heq
        | none => rw [handler_of_none h hp hd] at heq; simp at heq
    · constructor
      · intro h200
        cases hp : tryRead (pub (mdFilename (normalizeSlug slugRaw))) with
        | some b => exact Or.inl (by simp [hp])
        | none =>
          cases hd : tryRead (dist (mdFilename (normalizeSlug slugRaw))) with
          | some b => exact Or.inr (by simp [hd])
          | none =>
            rw [handler_of_none h hp hd] at h200
            simp at h200
      · intro hor
        cases hp : tryRead (pub (mdFilename (normalizeSlug slugRaw))) with
        | some b => rw [handler_of_pub h hp]
        | none =>
          cases hd : tryRead (dist (mdFilename (normalizeSlug slugRaw))) with
          | some b => rw [handler_of_dist h hp hd]
          | none => cases hor with
            | inl hc => exact absurd hp hc
            | inr hc => exact absurd hd hc

/-- Witness for C10 at concrete inputs: slug " /hello/ " normalizes to
"hello", `public/raw/hello.md` holds "# Hi" and is served with 200. -/
theorem raw_handler_spec_witness :
    handler (some (" /hello/ "))
        (fun n => if n = "hello.md" then some ("# Hi") else none)
        (fun _ => none) = ⟨200, "# Hi"⟩
    ∧ handler (some (" // "))
        (fun n => if n = "hello.md" then some ("# Hi") else none)
        (fun _ => none) = ⟨400, "missing slug"⟩ := by
  constructor
  · have h := raw_handler_spec (some (" /hello/ "))
      (fun n => if n = "hello.md" then some ("# Hi") else none) (fun _ => none)
    exact (h.2 (by decide)).2.1 ("# Hi") (by decide)
  · have h := raw_handler_spec (some (" // "))
      (fun n => if n = "hello.md" then some ("# Hi") else none) (fun _ => none)
    exact h.1.mpr (by decide)

/-! ## cleanupStaleSessions -/

/-- C6: `cleanupStaleSessions` keeps exactly the rows not strictly older than
the 2-minute timeout, touches no other table or aggregate, and returns the
number of deleted rows. -/
theorem cleanupStaleSessions_spec (now : Int) (s : Store) :
    (∀ r : ActiveSession, r ∈ (cleanupStaleSessions now s).2.activeSessions ↔
        r ∈ s.activeSessions ∧ ¬ r.lastSeen < now - SESSION_TIMEOUT_MS)
    ∧ (cleanupStaleSessions now s).2.pageViews = s.pageViews
    ∧ (cleanupStaleSessions now s).2.aggPageViewsByPath = s.aggPageViewsByPath
    ∧ (cleanupStaleSessions now s).2.aggTotalPageViews = s.aggTotalPageViews
    ∧ (cleanupStaleSessions now s).2.aggUniqueVisitors = s.aggUniqueVisitors
    ∧ (cleanupStaleSessions now s).2.nextId = s.nextId
    ∧ (cleanupStaleSessions now s).1 + (cleanupStaleSessions now s).2.activeSessions.length
        = s.activeSessions.length := by
  refine ⟨?_, rfl, rfl, rfl, rfl, rfl, ?_⟩
  · intro r
    simp [cleanupStaleSessions, List.mem_filter]
  · exact length_filter_add_length_filter_not s.activeSessions _

/-- A one-session store used to instantiate the session theorems. -/
def sampleSessionStore : Store :=
  { Store.empty with activeSessions := [⟨0, "s1", "/a", 0⟩], nextId := 1 }

/-- Witness for C6: at time 200000 the session last seen at 0 is stale
(cutoff 80000) and is deleted. -/
theorem cleanupStaleSessions_spec_witness :
    (⟨0, "s1", "/a", 0⟩ : ActiveSession) ∉
      (cleanupStaleSessions 200000 sampleSessionStore).2.activeSessions := by
  intro hm
  have h := (cleanupStaleSessions_spec 200000 sampleSessionStore).1 ⟨0, "s1", "/a", 0⟩
  exact (h.mp hm).2 (by decide)

/-- C9: a session whose `lastSeen` sits exactly at `now - SESSION_TIMEOUT_MS`
is not collected by `getStats`'s strict `gt` filter, yet survives
`cleanupStaleSessions`'s strict `lt` filter at the same instant. -/
theorem sessionTimeout_boundary (now : Int) (s : Store) (r : ActiveSession)
    (hr : r ∈ s.activeSessions) (h : r.lastSeen = now - SESSION_TIMEOUT_MS) :
    r ∉ activeSessionsAt now s
    ∧ r ∈ (cleanupStaleSessions now s).2.activeSessions
    ∧ (getStats now s).activeVisitors = (activeSessionsAt now s).length := by
  refine ⟨?_, ?_, rfl⟩
  · intro hmem
    rw [activeSessionsAt, List.mem_filter] at hmem
    have h2 := hmem.2
    rw [h] at h2
    simp at h2
  · have h3 := (cleanupStaleSessions_spec now s).1 r
    exact h3.mpr ⟨hr, by rw [h]; exact lt_irrefl _⟩

/-- Witness for C9 at `now = 120000` and a session last seen at 0. -/
theorem sessionTimeout_boundary_witness :
    (⟨0, "s1", "/a", 0⟩ : ActiveSession) ∉ activeSessionsAt 120000 sampleSessionStore
    ∧ (⟨0, "s1", "/a", 0⟩ : ActiveSession) ∈
        (cleanupStaleSessions 120000 sampleSessionStore).2.activeSessions := by
  have h := sessionTimeout_boundary 120000 sampleSessionStore ⟨0, "s1", "/a", 0⟩
    (by decide) (by decide)
  exact ⟨h.1, h.2.1⟩

/-! ## heartbeat -/

theorem heartbeat_of_found {s : Store} {sid : String} {r : ActiveSession}
    (hr : findSession s sid = some r) (now : Int) (p : String) :
    heartbeat now sid p s =
      if r.currentPath = p ∧ now - r.lastSeen < HEARTBEAT_DEDUP_MS then s
      else
        { s with activeSessions := s.activeSessions.map (fun x =>
            if x.id = r.id then { x with currentPath := p, lastSeen := now } else x) } := by
  unfold heartbeat
  rw [hr]

theorem heartbeat_of_none {s : Store} {sid : String}
    (hr : findSession s sid = none) (now : Int) (p : String) :
    heartbeat now sid p s =
      { s with
        activeSessions := s.activeSessions ++ [⟨s.nextId, sid, p, now⟩]
        nextId := s.nextId + 1 } := by
  unfold heartbeat
  rw [hr]

/-- C5: `heartbeat` leaves the store untouched exactly on the debounce path
(same path, written less than 10 s ago); otherwise it patches the found row's
`currentPath`/`lastSeen` in place, inserting a fresh row only when the
session has none. -/
theorem heartbeat_spec (now : Int) (sid p : String) (s : Store) :
    (∀ r, findSession s sid = some r →
      ((r.currentPath = p ∧ now - r.lastSeen < HEARTBEAT_DEDUP_MS) →
          heartbeat now sid p s = s)
      ∧ (¬ (r.currentPath = p ∧ now - r.lastSeen < HEARTBEAT_DEDUP_MS) →
          heartbeat now sid p s =
            { s with activeSessions := s.activeSessions.map (fun x =>
                if x.id = r.id then { x with currentPath := p, lastSeen := now } else x) }))
    ∧ (findSession s sid = none →
        heartbeat now sid p s =
          { s with
            activeSessions := s.activeSessions ++ [⟨s.nextId, sid, p, now⟩]
            nextId := s.nextId + 1 }) := by
  refine ⟨fun r hr => ⟨fun hcond => ?_, fun hcond => ?_⟩, fun hnone => ?_⟩
  · rw [heartbeat_of_found hr, if_pos hcond]
  · rw [heartbeat_of_found hr, if_neg hcond]
  · exact heartbeat_of_none hnone now p

/-- Witness for C5: a heartbeat 20 s after the last write patches the row; one
5 s after with the same path is a no-op; an unknown session gets a new row. -/
theorem heartbeat_spec_witness :
    heartbeat 20000 ("s1") ("/a") sampleSessionStore =
      { sampleSessionStore with
        activeSessions := sampleSessionStore.activeSessions.map (fun x =>
          if x.id = 0 then { x with currentPath := "/a", lastSeen := 20000 } else x) }
    ∧ heartbeat 5000 ("s1") ("/a") sampleSessionStore = sampleSessionStore
    ∧ heartbeat 5000 ("s2") ("/b") sampleSessionStore =
        { sampleSessionStore with
          activeSessions := sampleSessionStore.activeSessions ++ [⟨1, "s2", "/b", 5000⟩]
          nextId := 2 } := by
  refine ⟨?_, ?_, ?_⟩
  · exact ((heartbeat_spec 20000 ("s1") ("/a") sampleSessionStore).1
      ⟨0, "s1", "/a", 0⟩ (by decide)).2 (by decide)
  · exact ((heartbeat_spec 5000 ("s1") ("/a") sampleSessionStore).1
      ⟨0, "s1", "/a", 0⟩ (by decide)).1 (by decide)
  · exact (heartbeat_spec 5000 ("s2") ("/b") sampleSessionStore).2 (by decide)

/-! ## recordPageView per-call behaviour -/

theorem recordPageView_of_hit {s : Store} {sid p : String} {e : PageViewEvent} {now : Int}
    (hr : recentView s sid p = some e) (ht : e.timestamp > now - DEDUP_WINDOW_MS)
    (pt : String) :
    recordPageView now p pt sid s = s := by
  unfold recordPageView
  rw [hr]
  show (if e.timestamp > now - DEDUP_WINDOW_MS then s else insertView now p pt sid s) = s
  rw [if_pos ht]

theorem recordPageView_of_miss {s : Store} {sid p : String} {e : PageViewEvent} {now : Int}
    (hr : recentView s sid p = some e) (ht : ¬ e.timestamp > now - DEDUP_WINDOW_MS)
    (pt : String) :
    recordPageView now p pt sid s = insertView now p pt sid s := by
  unfold recordPageView
  rw [hr]
  show (if e.timestamp > now - DEDUP_WINDOW_MS then s else insertView now p pt sid s) =
    insertView now p pt sid s
  rw [if_neg ht]

theorem recordPageView_of_none {s : Store} {sid p : String} {now : Int}
    (hr : recentView s sid p = none) (pt : String) :
    recordPageView now p pt sid s = insertView now p pt sid s := by
  unfold recordPageView
  rw [hr]

theorem insertView_pageViews (now : Int) (p pt sid : String) (s : Store) :
    (insertView now p pt sid s).pageViews = s.pageViews ++ [⟨s.nextId, p, pt, sid, now⟩] := rfl

theorem recordPageView_empty (now : Int) (p pt sid : String) :
    recordPageView now p pt sid Store.empty =
      { pageViews := [⟨0, p, pt, sid, now⟩]
        activeSessions := []
        aggPageViewsByPath := [0]
        aggTotalPageViews := [0]
        aggUniqueVisitors := [0]
        nextId := 1 } := rfl

theorem recentView_single (sid p pt : String) (t1 : Int) :
    recentView
      { pageViews := [⟨0, p, pt, sid, t1⟩]
        activeSessions := []
        aggPageViewsByPath := [0]
        aggTotalPageViews := [0]
        aggUniqueVisitors := [0]
        nextId := 1 } sid p = some ⟨0, p, pt, sid, t1⟩ := by
  simp [recentView]

theorem recentView_single_ne {p p2 : String} (sid pt : String) (t1 : Int) (hne : p2 ≠ p) :
    recentView
      { pageViews := [⟨0, p, pt, sid, t1⟩]
        activeSessions := []
        aggPageViewsByPath := [0]
        aggTotalPageViews := [0]
        aggUniqueVisitors := [0]
        nextId := 1 } sid p2 = none := by
  simp [recentView, Ne.symm hne]

/-- C1: `recordPageView` is a no-op exactly when the most recent event of the
same `(sessionId, path)` is within 30 minutes; otherwise it appends exactly
one event stamped `now`.  Two same-pair views < 30 min apart leave one event,
> 30 min apart leave two, and a different path is never deduplicated. -/
theorem recordPageView_spec (now : Int) (p pt sid : String) (s : Store) :
    (∀ e, recentView s sid p = some e → e.timestamp > now - DEDUP_WINDOW_MS →
        recordPageView now p pt sid s = s)
    ∧ ((∀ e, recentView s sid p = some e → e.timestamp ≤ now - DEDUP_WINDOW_MS) →
        (recordPageView now p pt sid s).pageViews =
          s.pageViews ++ [⟨s.nextId, p, pt, sid, now⟩])
    ∧ (∀ t1 t2 : Int, t2 - t1 < DEDUP_WINDOW_MS →
        (recordPageView t2 p pt sid (recordPageView t1 p pt sid Store.empty)).pageViews.length
          = 1)
    ∧ (∀ t1 t2 : Int, DEDUP_WINDOW_MS < t2 - t1 →
        (recordPageView t2 p pt sid (recordPageView t1 p pt sid Store.empty)).pageViews.length
          = 2)
    ∧ (∀ t1 t2 : Int, ∀ p2 pt2 : String, p2 ≠ p →
        (recordPageView t2 p2 pt2 sid (recordPageView t1 p pt sid Store.empty)).pageViews.length
          = 2) := by
  refine ⟨fun e hr ht => recordPageView_of_hit hr ht pt, fun hmiss => ?_,
    fun t1 t2 h => ?_, fun t1 t2 h => ?_, fun t1 t2 p2 pt2 hne => ?_⟩
  · cases hrv : recentView s sid p with
    | none => rw [recordPageView_of_none hrv pt, insertView_pageViews]
    | some e =>
      rw [recordPageView_of_miss hrv (not_lt.mpr (hmiss e hrv)) pt, insertView_pageViews]
  · rw [recordPageView_empty]
    rw [recordPageView_of_hit (recentView_single sid p pt t1)
      (show t1 > t2 - DEDUP_WINDOW_MS by linarith) pt]
    rfl
  · rw [recordPageView_empty]
    rw [recordPageView_of_miss (recentView_single sid p pt t1)
      (show ¬ t1 > t2 - DEDUP_WINDOW_MS by intro hc; linarith) pt]
    rfl
  · rw [recordPageView_empty]
    rw [recordPageView_of_none (recentView_single_ne sid pt t1 hne) pt2]
    rfl

/-- Witness for C1: views of "/a" by session "s1" at t = 0 and t = 600000
(10 min) leave one event; at t = 0 and t = 2000000 (33 min) they leave two. -/
theorem recordPageView_spec_witness :
    (recordPageView 600000 ("/a") ("post") ("s1")
        (recordPageView 0 ("/a") ("post") ("s1") Store.empty)).pageViews.length = 1
    ∧ (recordPageView 2000000 ("/a") ("post") ("s1")
        (recordPageView 0 ("/a") ("post") ("s1") Store.empty)).pageViews.length = 2 := by
  have h := recordPageView_spec 0 ("/a") ("post") ("s1") Store.empty
  exact ⟨h.2.2.1 0 600000 (by decide), h.2.2.2.1 0 2000000 (by decide)⟩

/-! ## getStats -/

theorem firstByTimestamp_eq_none {l : List PageViewEvent} :
    firstByTimestamp l = none ↔ l = [] := by
  cases l with
  | nil => simp [firstByTimestamp]
  | cons e rest =>
    cases hr : firstByTimestamp rest
    · simp [firstByTimestamp, hr]
    · simp only [firstByTimestamp, hr]
      split <;> simp

theorem firstByTimestamp_mem {l : List PageViewEvent} {e : PageViewEvent}
    (h : firstByTimestamp l = some e) : e ∈ l := by
  induction l generalizing e with
  | nil => simp [firstByTimestamp] at h
  | cons x rest ih =>
    rw [firstByTimestamp] at h
    cases hr : firstByTimestamp rest with
    | none =>
      rw [hr] at h
      injection h with h
      subst h
      exact List.mem_cons_self _ _
    | some m =>
      rw [hr] at h
      have h2 : (if x.timestamp ≤ m.timestamp then some x else some m) = some e := h
      by_cases hle : x.timestamp ≤ m.timestamp
      · rw [if_pos hle] at h2
        injection h2 with h2
        subst h2
        exact List.mem_cons_self _ _
      · rw [if_neg hle] at h2
        injection h2 with h2
        subst h2
        exact List.mem_cons_of_mem _ (ih hr)

theorem firstByTimestamp_le {l : List PageViewEvent} {e : PageViewEvent}
    (h : firstByTimestamp l = some e) :
    ∀ x ∈ l, e.timestamp ≤ x.timestamp := by
  induction l generalizing e with
  | nil => simp [firstByTimestamp] at h
  | cons y rest ih =>
    rw [firstByTimestamp] at h
    cases hr : firstByTimestamp rest with
    | none =>
      rw [hr] at h
      injection h with h
      subst h
      intro x hx
      rcases List.mem_cons.mp hx with rfl | hx2
      · exact le_refl _
      · rw [firstByTimestamp_eq_none.mp hr] at hx2
        simp at hx2
    | some m =>
      rw [hr] at h
      have h2 : (if y.timestamp ≤ m.timestamp then some y else some m) = some e := h
      intro x hx
      by_cases hle : y.timestamp ≤ m.timestamp
      · rw [if_pos hle] at h2
        injection h2 with h2
        subst h2
        rcases List.mem_cons.mp hx with rfl | hx2
        · exact le_refl _
        · exact le_trans hle (ih hr x hx2)
      · rw [if_neg hle] at h2
        injection h2 with h2
        subst h2
        rcases List.mem_cons.mp hx with rfl | hx2
        · exact le_of_lt (not_le.mp hle)
        · exact ih hr x hx2

/-- C4: `getStats` computes its totals by full scan — total is the number of
stored events, unique visitors the number of distinct sessionIds,
`trackingSince` the least stored timestamp (or none on an empty log) — and
its result never depends on the three aggregate components. -/
theorem getStats_spec (now : Int) (s : Store) (a b c : List Nat) :
    (getStats now s).totalPageViews = s.pageViews.length
    ∧ (getStats now s).uniqueVisitors = (s.pageViews.map (·.sessionId)).toFinset.card
    ∧ ((getStats now s).trackingSince = none ↔ s.pageViews = [])
    ∧ (∀ t, (getStats now s).trackingSince = some t →
        (∃ e ∈ s.pageViews, e.timestamp = t) ∧ ∀ e ∈ s.pageViews, t ≤ e.timestamp)
    ∧ getStats now
        { s with
          aggPageViewsByPath := a
          aggTotalPageViews := b
          aggUniqueVisitors := c } = getStats now s := by
  refine ⟨rfl, (List.card_toFinset _).symm, ?_, ?_, rfl⟩
  · simp only [getStats]
    cases hf : firstByTimestamp s.pageViews with
    | none => simp [firstByTimestamp_eq_none.mp hf]
    | some m =>
      have hne : s.pageViews ≠ [] := by
        intro hnil
        rw [firstByTimestamp_eq_none.mpr hnil] at hf
        exact Option.noConfusion hf
      simp [hne]
  · intro t ht
    simp only [getStats] at ht
    cases hf : firstByTimestamp s.pageViews with
    | none => rw [hf] at ht; simp at ht
    | some m =>
      rw [hf] at ht
      have hmt : m.timestamp = t := by simpa using ht
      refine ⟨⟨m, firstByTimestamp_mem hf, hmt⟩, fun e he => ?_⟩
      rw [← hmt]
      exact firstByTimestamp_le hf e he

/-- A two-event store used to instantiate the getStats theorem. -/
def samplePVStore : Store :=
  { Store.empty with
    pageViews := [⟨0, "/a", "post", "s1", 100⟩, ⟨1, "/b", "post", "s2", 50⟩]
    nextId := 2 }

/-- Witness for C4: on a two-event log, total is 2, unique visitors 2, and
`trackingSince` is the minimum timestamp 50. -/
theorem getStats_spec_witness :
    (getStats 0 samplePVStore).totalPageViews = 2
    ∧ (getStats 0 samplePVStore).uniqueVisitors = 2
    ∧ ((∃ e ∈ samplePVStore.pageViews, e.timestamp = 50)
        ∧ ∀ e ∈ samplePVStore.pageViews, 50 ≤ e.timestamp) := by
  have h := getStats_spec 0 samplePVStore [] [] []
  exact ⟨h.1.trans rfl, h.2.1.trans (by decide), h.2.2.2.1 50 (by decide)⟩

/-! ## backfillAggregates -/

/-- Folding `insertIfDoesNotExist` over a list of document ids. -/
def foldIns (ids : List Nat) (l : List Nat) : List Nat :=
  ids.foldl insertIfAbsent l

/-- The ids the backfill loop offers to the `uniqueVisitors` aggregate: the
first event of each session not already in `seenSessions`. -/
def uIds : List PageViewEvent → List String → List Nat
  | [], _ => []
  | d :: rest, seen =>
    if d.sessionId ∈ seen then uIds rest seen
    else d.id :: uIds rest (d.sessionId :: seen)

theorem foldIns_cons (i : Nat) (ids l : List Nat) :
    foldIns (i :: ids) l = foldIns ids (insertIfAbsent l i) := rfl

theorem mem_foldIns {ids l : List Nat} {j : Nat} :
    j ∈ foldIns ids l ↔ j ∈ ids ∨ j ∈ l := by
  induction ids generalizing l with
  | nil => simp [foldIns]
  | cons i ids ih =>
    rw [foldIns_cons, ih, mem_insertIfAbsent]
    simp [List.mem_cons]
    tauto

theorem foldIns_of_mem {ids l : List Nat} (h : ∀ i ∈ ids, i ∈ l) :
    foldIns ids l = l := by
  induction ids with
  | nil => rfl
  | cons i ids ih =>
    rw [foldIns_cons, insertIfAbsent_of_mem (h i (List.mem_cons_self _ _))]
    exact ih (fun j hj => h j (List.mem_cons_of_mem _ hj))

theorem foldIns_idem (ids l : List Nat) :
    foldIns ids (foldIns ids l) = foldIns ids l :=
  foldIns_of_mem (fun _ hi => mem_foldIns.mpr (Or.inl hi))

theorem backfillLoop_eq (pv : List PageViewEvent) (seen : List String) (s : Store) :
    backfillLoop pv seen s =
      ({ s with
         aggPageViewsByPath := foldIns (pv.map (·.id)) s.aggPageViewsByPath
         aggTotalPageViews := foldIns (pv.map (·.id)) s.aggTotalPageViews
         aggUniqueVisitors := foldIns (uIds pv seen) s.aggUniqueVisitors },
       (uIds pv seen).length) := by
  induction pv generalizing seen s with
  | nil => rfl
  | cons d rest ih =>
    simp only [backfillLoop]
    by_cases hd : d.sessionId ∈ seen
    · rw [if_pos hd, ih]
      simp [uIds, hd, foldIns_cons, List.map_cons]
    · rw [if_neg hd, ih]
      simp [uIds, hd, foldIns_cons, List.map_cons]

/-- C7: `backfillAggregates` is idempotent — a second run on the resulting
store returns the identical store (all three aggregates unchanged) and the
identical `{processed, uniqueSessions}` counts. -/
theorem backfillAggregates_idem (s : Store) :
    backfillAggregates (backfillAggregates s).1 = backfillAggregates s := by
  simp only [backfillAggregates, backfillLoop_eq]
  simp [foldIns_idem]

/-- Witness for C7 on the concrete two-event store. -/
theorem backfillAggregates_idem_witness :
    backfillAggregates (backfillAggregates samplePVStore).1 =
      backfillAggregates samplePVStore :=
  backfillAggregates_idem samplePVStore

/-! ## The dedup-separation invariant (C2) -/

/-- Timestamps never decrease along the (creation-ordered) event log. -/
def TimeSorted (l : List PageViewEvent) : Prop :=
  l.Pairwise (fun a b => a.timestamp ≤ b.timestamp)

/-- Any two events of one `(sessionId, path)` pair are at least a dedup
window apart. -/
def DedupSeparated (l : List PageViewEvent) : Prop :=
  l.Pairwise (fun a b => a.sessionId = b.sessionId → a.path = b.path →
    a.timestamp + DEDUP_WINDOW_MS ≤ b.timestamp)

/-- All stored timestamps are at most the clock value `c`. -/
def ClockBound (c : Int) (l : List PageViewEvent) : Prop :=
  ∀ e ∈ l, e.timestamp ≤ c

/-- The inductive invariant of the event log at clock `c`. -/
def StoreInv (c : Int) (s : Store) : Prop :=
  ClockBound c s.pageViews ∧ TimeSorted s.pageViews ∧ DedupSeparated s.pageViews

theorem find?_pairwise_rel {α : Type} {R : α → α → Prop} {m : List α} {pred : α → Bool}
    {e : α} (h : m.Pairwise R) (hf : m.find? pred = some e) :
    ∀ a ∈ m, pred a = true → a = e ∨ R e a := by
  induction m with
  | nil => simp at hf
  | cons x xs ih =>
    rw [List.pairwise_cons] at h
    intro a ha hp
    cases hx : pred x with
    | true =>
      rw [List.find?_cons_of_pos _ hx] at hf
      injection hf with hf
      subst hf
      rcases List.mem_cons.mp ha with rfl | ha2
      · exact Or.inl rfl
      · exact Or.inr (h.1 a ha2)
    | false =>
      rw [List.find?_cons_of_neg _ (by simp [hx])] at hf
      rcases List.mem_cons.mp ha with rfl | ha2
      · rw [hp] at hx
        cases hx
      · exact ih h.2 hf a ha2 hp

theorem recentView_ge_of_match {s : Store} {sid p : String} {e : PageViewEvent}
    (hs : TimeSorted s.pageViews) (hf : recentView s sid p = some e) :
    ∀ a ∈ s.pageViews, a.sessionId = sid → a.path = p → a.timestamp ≤ e.timestamp := by
  intro a ha hsid hp
  unfold recentView at hf
  have hrev : s.pageViews.reverse.Pairwise (fun u v => v.timestamp ≤ u.timestamp) :=
    List.pairwise_reverse.mpr hs
  have hcase := find?_pairwise_rel hrev hf a (List.mem_reverse.mpr ha) (by simp [hsid, hp])
  rcases hcase with rfl | hle
  · exact le_refl _
  · exact hle

theorem insertView_inv {c now : Int} {s : Store} {p pt sid : String}
    (h : StoreInv c s) (hc : c ≤ now)
    (hsep : ∀ a ∈ s.pageViews, a.sessionId = sid → a.path = p →
      a.timestamp + DEDUP_WINDOW_MS ≤ now) :
    StoreInv now (insertView now p pt sid s) := by
  obtain ⟨hb, hs, hd⟩ := h
  refine ⟨?_, ?_, ?_⟩
  · intro e he
    rw [insertView_pageViews] at he
    rcases List.mem_append.mp he with he1 | he2
    · exact le_trans (hb e he1) hc
    · simp at he2
      subst he2
      exact le_refl _
  · rw [insertView_pageViews]
    unfold TimeSorted
    rw [List.pairwise_append]
    refine ⟨hs, List.pairwise_singleton _ _, ?_⟩
    intro a ha b hb2
    simp at hb2
    subst hb2
    exact le_trans (hb a ha) hc
  · rw [insertView_pageViews]
    unfold DedupSeparated
    rw [List.pairwise_append]
    refine ⟨hd, List.pairwise_singleton _ _, ?_⟩
    intro a ha b hb2
    simp at hb2
    subst hb2
    intro hsid hp
    exact hsep a ha hsid hp

theorem recordPageView_inv {c : Int} {s : Store} (h : StoreInv c s) {now : Int}
    (hc : c ≤ now) (p pt sid : String) :
    StoreInv now (recordPageView now p pt sid s) := by
  cases hrv : recentView s sid p with
  | none =>
    rw [recordPageView_of_none hrv pt]
    refine insertView_inv h hc ?_
    intro a ha hsid hp
    exfalso
    unfold recentView at hrv
    have h2 := List.find?_eq_none.mp hrv a (List.mem_reverse.mpr ha)
    simp [hsid, hp] at h2
  | some e =>
    by_cases ht : e.timestamp > now - DEDUP_WINDOW_MS
    · rw [recordPageView_of_hit hrv ht pt]
      exact ⟨fun x hx => le_trans (h.1 x hx) hc, h.2.1, h.2.2⟩
    · rw [recordPageView_of_miss hrv ht pt]
      refine insertView_inv h hc ?_
      intro a ha hsid hp
      have hae := recentView_ge_of_match h.2.1 hrv a ha hsid hp
      have het : e.timestamp ≤ now - DEDUP_WINDOW_MS := not_lt.mp ht
      linarith

theorem heartbeat_pageViews (now : Int) (sid p : String) (s : Store) :
    (heartbeat now sid p s).pageViews = s.pageViews := by
  cases hf : findSession s sid with
  | some r =>
    rw [heartbeat_of_found hf]
    split <;> rfl
  | none => rw [heartbeat_of_none hf]

theorem backfill_pageViews (s : Store) :
    (backfillAggregates s).1.pageViews = s.pageViews := by
  simp [backfillAggregates, backfillLoop_eq]

theorem op_inv {c : Int} {s : Store} (h : StoreInv c s) (op : Op) (hc : c ≤ op.time) :
    StoreInv op.time (op.apply s) := by
  cases op with
  | record n p pt sid => exact recordPageView_inv h hc p pt sid
  | hb n sid p =>
    refine ⟨fun e he => ?_, ?_, ?_⟩
    · rw [show ((Op.hb n sid p).apply s).pageViews = s.pageViews from
        heartbeat_pageViews n sid p s] at he
      exact le_trans (h.1 e he) hc
    · show TimeSorted ((Op.hb n sid p).apply s).pageViews
      rw [show ((Op.hb n sid p).apply s).pageViews = s.pageViews from
        heartbeat_pageViews n sid p s]
      exact h.2.1
    · show DedupSeparated ((Op.hb n sid p).apply s).pageViews
      rw [show ((Op.hb n sid p).apply s).pageViews = s.pageViews from
        heartbeat_pageViews n sid p s]
      exact h.2.2
  | stats n => exact ⟨fun e he => le_trans (h.1 e he) hc, h.2.1, h.2.2⟩
  | cleanup n => exact ⟨fun e he => le_trans (h.1 e he) hc, h.2.1, h.2.2⟩
  | backfill n =>
    refine ⟨fun e he => ?_, ?_, ?_⟩
    · rw [show ((Op.backfill n).apply s).pageViews = s.pageViews from
        backfill_pageViews s] at he
      exact le_trans (h.1 e he) hc
    · show TimeSorted ((Op.backfill n).apply s).pageViews
      rw [show ((Op.backfill n).apply s).pageViews = s.pageViews from backfill_pageViews s]
      exact h.2.1
    · show DedupSeparated ((Op.backfill n).apply s).pageViews
      rw [show ((Op.backfill n).apply s).pageViews = s.pageViews from backfill_pageViews s]
      exact h.2.2

theorem inv_of_reachable {c : Int} {s : Store} (h : Reachable c s) : StoreInv c s := by
  induction h with
  | init c => exact ⟨fun e he => absurd he (List.not_mem_nil e), List.Pairwise.nil,
      List.Pairwise.nil⟩
  | step op hr hc ih => exact op_inv ih op hc

/-- C2: in every state reachable from the empty store with a non-decreasing
clock, two distinct stored events of the same `(sessionId, path)` have
timestamps at least `DEDUP_WINDOW_MS` apart. -/
theorem pageViews_dedup_separated {c : Int} {s : Store} (h : Reachable c s) :
    ∀ (i j : Nat) (hi : i < s.pageViews.length) (hj : j < s.pageViews.length),
      i ≠ j →
      (s.pageViews.get ⟨i, hi⟩).sessionId = (s.pageViews.get ⟨j, hj⟩).sessionId →
      (s.pageViews.get ⟨i, hi⟩).path = (s.pageViews.get ⟨j, hj⟩).path →
      DEDUP_WINDOW_MS ≤
        |(s.pageViews.get ⟨i, hi⟩).timestamp - (s.pageViews.get ⟨j, hj⟩).timestamp| := by
  intro i j hi hj hne hsid hp
  have hd := (inv_of_reachable h).2.2
  unfold DedupSeparated at hd
  rw [List.pairwise_iff_get] at hd
  rcases Nat.lt_or_ge i j with hij | hge
  · have hle := hd ⟨i, hi⟩ ⟨j, hj⟩ hij hsid hp
    exact le_abs.mpr (Or.inr (by linarith))
  · have hij : j < i := lt_of_le_of_ne hge (Ne.symm hne)
    have hle := hd ⟨j, hj⟩ ⟨i, hi⟩ hij hsid.symm hp.symm
    exact le_abs.mpr (Or.inl (by linarith))

/-- Witness for C2: after two same-pair views at t = 0 and t = 1800000
(exactly 30 min, so both stored), the two timestamps are a window apart. -/
theorem pageViews_dedup_separated_witness :
    DEDUP_WINDOW_MS ≤
      |(((Op.record 1800000 ("/a") ("post") ("s1")).apply
            ((Op.record 0 ("/a") ("post") ("s1")).apply Store.empty)).pageViews.get
          ⟨0, by decide⟩).timestamp -
        (((Op.record 1800000 ("/a") ("post") ("s1")).apply
            ((Op.record 0 ("/a") ("post") ("s1")).apply Store.empty)).pageViews.get
          ⟨1, by decide⟩).timestamp| := by
  have r2 : Reachable 1800000 ((Op.record 1800000 ("/a") ("post") ("s1")).apply
      ((Op.record 0 ("/a") ("post") ("s1")).apply Store.empty)) :=
    Reachable.step (Op.record 1800000 ("/a") ("post") ("s1"))
      (Reachable.step (Op.record 0 ("/a") ("post") ("s1")) (Reachable.init 0) (by decide))
      (by decide)
  exact pageViews_dedup_separated r2 0 1 (by decide) (by decide) (by decide)
    (by decide) (by decide)

/-! ## The unique-session-row invariant (C8) -/

theorem recordPageView_activeSessions (now : Int) (p pt sid : String) (s : Store) :
    (recordPageView now p pt sid s).activeSessions = s.activeSessions := by
  cases hrv : recentView s sid p with
  | none =>
    rw [recordPageView_of_none hrv pt]
    rfl
  | some e =>
    by_cases ht : e.timestamp > now - DEDUP_WINDOW_MS
    · rw [recordPageView_of_hit hrv ht pt]
    · rw [recordPageView_of_miss hrv ht pt]
      rfl

theorem backfill_activeSessions (s : Store) :
    (backfillAggregates s).1.activeSessions = s.activeSessions := by
  simp [backfillAggregates, backfillLoop_eq]

theorem heartbeat_nodup {s : Store}
    (h : (s.activeSessions.map (·.sessionId)).Nodup) (now : Int) (sid p : String) :
    ((heartbeat now sid p s).activeSessions.map (·.sessionId)).Nodup := by
  cases hf : findSession s sid with
  | some r =>
    by_cases hcond : r.currentPath = p ∧ now - r.lastSeen < HEARTBEAT_DEDUP_MS
    · rw [heartbeat_of_found hf, if_pos hcond]
      exact h
    · rw [heartbeat_of_found hf, if_neg hcond]
      show ((s.activeSessions.map (fun x =>
        if x.id = r.id then { x with currentPath := p, lastSeen := now } else x)).map
          (·.sessionId)).Nodup
      rw [List.map_map]
      have heq : s.activeSessions.map ((·.sessionId) ∘ (fun x =>
          if x.id = r.id then { x with currentPath := p, lastSeen := now } else x)) =
          s.activeSessions.map (·.sessionId) :=
        List.map_congr_left (fun x _ => by dsimp [Function.comp]; split <;> rfl)
      rw [heq]
      exact h
  | none =>
    rw [heartbeat_of_none hf]
    show ((s.activeSessions ++ [(⟨s.nextId, sid, p, now⟩ : ActiveSession)]).map
      (·.sessionId)).Nodup
    rw [List.map_append, List.nodup_append]
    refine ⟨h, List.nodup_singleton _, ?_⟩
    intro a ha hb2
    simp at hb2
    subst hb2
    unfold findSession at hf
    have hnone := List.find?_eq_none.mp hf
    rcases List.mem_map.mp ha with ⟨r0, hr0, hr0s⟩
    exact hnone r0 hr0 (by simp [hr0s])

theorem cleanup_nodup {s : Store}
    (h : (s.activeSessions.map (·.sessionId)).Nodup) (now : Int) :
    (((cleanupStaleSessions now s).2.activeSessions).map (·.sessionId)).Nodup := by
  have hsub : (cleanupStaleSessions now s).2.activeSessions.Sublist s.activeSessions :=
    List.filter_sublist _
  exact List.Nodup.sublist (List.Sublist.map _ hsub) h

theorem op_nodup {s : Store}
    (h : (s.activeSessions.map (·.sessionId)).Nodup) (op : Op) :
    (((op.apply s).activeSessions).map (·.sessionId)).Nodup := by
  cases op with
  | record n p pt sid =>
    show (((recordPageView n p pt sid s).activeSessions).map (·.sessionId)).Nodup
    rw [recordPageView_activeSessions]
    exact h
  | hb n sid p => exact heartbeat_nodup h n sid p
  | stats n => exact h
  | cleanup n => exact cleanup_nodup h n
  | backfill n =>
    show ((((backfillAggregates s).1).activeSessions).map (·.sessionId)).Nodup
    rw [backfill_activeSessions]
    exact h

/-- C8: in every reachable state, the `activeSessions` table holds at most
one row per `sessionId` — the sessionId column is duplicate-free. -/
theorem activeSessions_unique {c : Int} {s : Store} (h : Reachable c s) :
    (s.activeSessions.map (·.sessionId)).Nodup := by
  induction h with
  | init c => exact List.nodup_nil
  | step op hr hc ih => exact op_nodup ih op

/-- Witness for C8: two heartbeats of distinct sessions leave a
duplicate-free sessionId column. -/
theorem activeSessions_unique_witness :
    ((((Op.hb 5 ("s2") ("/b")).apply
        ((Op.hb 0 ("s1") ("/a")).apply Store.empty)).activeSessions).map
          (·.sessionId)).Nodup :=
  activeSessions_unique
    (Reachable.step (Op.hb 5 ("s2") ("/b"))
      (Reachable.step (Op.hb 0 ("s1") ("/a")) (Reachable.init 0) (by decide))
      (by decide))

/-! ## The uniqueVisitors aggregate (C3) -/

/-- The events that are the first recorded view of their session (relative to
an already-seen set), in log order — exactly the events the `uniqueVisitors`
aggregate is fed. -/
def firstEvents : List PageViewEvent → List String → List PageViewEvent
  | [], _ => []
  | e :: rest, seen =>
    if e.sessionId ∈ seen then firstEvents rest seen
    else e :: firstEvents rest (e.sessionId :: seen)

/-- How many entries of the `uniqueVisitors` aggregate are ids of stored
events of the given session. -/
def contributed (s : Store) (sid : String) : Nat :=
  s.aggUniqueVisitors.countP
    (fun i => s.pageViews.any (fun e => e.id == i && e.sessionId == sid))

/-- Inductive invariant of record-only executions: the `uniqueVisitors`
aggregate holds exactly the ids of each session's first event, all stored ids
are below the id counter, and ids are unique. -/
def RecInv (s : Store) : Prop :=
  s.aggUniqueVisitors = (firstEvents s.pageViews []).map (·.id)
  ∧ (∀ e ∈ s.pageViews, e.id < s.nextId)
  ∧ (s.pageViews.map (·.id)).Nodup

theorem countP_map_list {α β : Type} (p : β → Bool) (f : α → β) (l : List α) :
    (l.map f).countP p = l.countP (fun a => p (f a)) := by
  induction l with
  | nil => rfl
  | cons x xs ih => simp [List.countP_cons, ih]

theorem countP_congr_list {α : Type} {p q : α → Bool} {l : List α}
    (h : ∀ a ∈ l, p a = q a) : l.countP p = l.countP q := by
  induction l with
  | nil => rfl
  | cons x xs ih =>
    rw [List.countP_cons, List.countP_cons, h x (List.mem_cons_self _ _),
      ih (fun a ha => h a (List.mem_cons_of_mem _ ha))]

theorem firstEvents_sublist (pv : List PageViewEvent) (seen : List String) :
    (firstEvents pv seen).Sublist pv := by
  induction pv generalizing seen with
  | nil => exact List.Sublist.refl _
  | cons e rest ih =>
    by_cases he : e.sessionId ∈ seen
    · rw [firstEvents, if_pos he]
      exact (ih seen).cons e
    · rw [firstEvents, if_neg he]
      exact (ih (e.sessionId :: seen)).cons₂ e

theorem firstEvents_append_one (pv : List PageViewEvent) (d : PageViewEvent)
    (seen : List String) :
    firstEvents (pv ++ [d]) seen =
      firstEvents pv seen ++
        (if d.sessionId ∈ seen ∨ d.sessionId ∈ sessionsOf pv then [] else [d]) := by
  induction pv generalizing seen with
  | nil =>
    by_cases hd : d.sessionId ∈ seen <;> simp [firstEvents, sessionsOf, hd]
  | cons e rest ih =>
    rw [List.cons_append]
    by_cases he : e.sessionId ∈ seen
    · rw [firstEvents, if_pos he, ih, firstEvents, if_pos he]
      have hiff : (d.sessionId ∈ seen ∨ d.sessionId ∈ sessionsOf rest) ↔
          (d.sessionId ∈ seen ∨ d.sessionId ∈ sessionsOf (e :: rest)) := by
        simp only [sessionsOf, List.map_cons, List.mem_cons]
        constructor
        · rintro (h1 | h2)
          · exact Or.inl h1
          · exact Or.inr (Or.inr h2)
        · rintro (h1 | h2 | h3)
          · exact Or.inl h1
          · exact Or.inl (h2 ▸ he)
          · exact Or.inr h3
      rw [if_congr hiff rfl rfl]
    · rw [firstEvents, if_neg he, ih, firstEvents, if_neg he, List.cons_append]
      have hiff : (d.sessionId ∈ e.sessionId :: seen ∨ d.sessionId ∈ sessionsOf rest) ↔
          (d.sessionId ∈ seen ∨ d.sessionId ∈ sessionsOf (e :: rest)) := by
        simp only [sessionsOf, List.map_cons, List.mem_cons]
        constructor
        · rintro ((h1 | h1) | h2)
          · exact Or.inr (Or.inl h1)
          · exact Or.inl h1
          · exact Or.inr (Or.inr h2)
        · rintro (h1 | h2 | h3)
          · exact Or.inl (Or.inr h1)
          · exact Or.inl (Or.inl h2)
          · exact Or.inr h3
      rw [if_congr hiff rfl rfl]

theorem countP_sid_firstEvents (pv : List PageViewEvent) (seen : List String)
    (sid : String) :
    (firstEvents pv seen).countP (fun e => e.sessionId == sid) =
      if sid ∈ seen then 0 else if sid ∈ sessionsOf pv then 1 else 0 := by
  induction pv generalizing seen with
  | nil =>
    by_cases hs : sid ∈ seen <;> simp [firstEvents, sessionsOf, hs]
  | cons e rest ih =>
    by_cases he : e.sessionId ∈ seen
    · rw [firstEvents, if_pos he, ih]
      by_cases hs : sid ∈ seen
      · simp [hs]
      · have hne : sid ≠ e.sessionId := fun hh => hs (hh ▸ he)
        simp [hs, sessionsOf, hne]
    · rw [firstEvents, if_neg he, List.countP_cons, ih]
      by_cases hs : sid = e.sessionId
      · subst hs
        simp [he, sessionsOf]
      · have h1 : (sid ∈ e.sessionId :: seen) ↔ sid ∈ seen := by
          simp [List.mem_cons, hs]
        have h2 : (e.sessionId == sid) = false := by
          simp
          exact fun hh => hs hh.symm
        have h3 : (sid ∈ sessionsOf (e :: rest)) ↔ sid ∈ sessionsOf rest := by
          simp [sessionsOf, hs]
        rw [h2, if_congr h1 rfl rfl, if_congr h3 rfl rfl]
        simp

theorem isNew_iff (s : Store) (sid : String) :
    ((s.pageViews.find? (fun e => e.sessionId == sid)).isNone = true) ↔
      sid ∉ sessionsOf s.pageViews := by
  rw [Option.isNone_iff_eq_none, List.find?_eq_none]
  show _ ↔ sid ∉ s.pageViews.map (·.sessionId)
  simp [List.mem_map]

theorem insertView_aggU (now : Int) (p pt sid : String) (s : Store) :
    (insertView now p pt sid s).aggUniqueVisitors =
      if (s.pageViews.find? (fun e => e.sessionId == sid)).isNone = true
      then insertIfAbsent s.aggUniqueVisitors s.nextId
      else s.aggUniqueVisitors := rfl

theorem nextId_fresh_aggU {s : Store} (h : RecInv s) : s.nextId ∉ s.aggUniqueVisitors := by
  rw [h.1]
  intro hmem
  rcases List.mem_map.mp hmem with ⟨d, hd, hid⟩
  have hdpv := (firstEvents_sublist s.pageViews []).subset hd
  have := h.2.1 d hdpv
  omega

theorem recentView_mem {s : Store} {sid p : String} {e : PageViewEvent}
    (h : recentView s sid p = some e) :
    e ∈ s.pageViews ∧ e.sessionId = sid ∧ e.path = p := by
  unfold recentView at h
  have hm := List.mem_of_find?_eq_some h
  have hp := List.find?_some h
  simp only [Bool.and_eq_true, beq_iff_eq] at hp
  exact ⟨List.mem_reverse.mp hm, hp.1, hp.2⟩

theorem insertView_recInv {s : Store} (h : RecInv s) (now : Int) (p pt sid : String) :
    RecInv (insertView now p pt sid s) := by
  obtain ⟨ha, hb, hc⟩ := h
  refine ⟨?_, ?_, ?_⟩
  · rw [insertView_aggU, insertView_pageViews, firstEvents_append_one]
    by_cases hmem : sid ∈ sessionsOf s.pageViews
    · have hcond : ((⟨s.nextId, p, pt, sid, now⟩ : PageViewEvent).sessionId ∈ ([] : List String)
          ∨ (⟨s.nextId, p, pt, sid, now⟩ : PageViewEvent).sessionId ∈ sessionsOf s.pageViews) :=
        Or.inr hmem
      rw [if_pos hcond, List.append_nil]
      have hnot : ¬ ((s.pageViews.find? (fun e2 => e2.sessionId == sid)).isNone = true) := by
        rw [isNew_iff]
        exact fun hno => hno hmem
      rw [if_neg hnot]
      exact ha
    · have hcond : ¬ ((⟨s.nextId, p, pt, sid, now⟩ : PageViewEvent).sessionId ∈ ([] : List String)
          ∨ (⟨s.nextId, p, pt, sid, now⟩ : PageViewEvent).sessionId ∈ sessionsOf s.pageViews) := by
        simp [hmem]
      rw [if_neg hcond]
      have hyes : (s.pageViews.find? (fun e2 => e2.sessionId == sid)).isNone = true :=
        (isNew_iff s sid).mpr hmem
      rw [if_pos hyes, List.map_append, insertIfAbsent,
        if_neg (nextId_fresh_aggU ⟨ha, hb, hc⟩), ha]
      rfl
  · intro e2 he2
    rw [insertView_pageViews] at he2
    rcases List.mem_append.mp he2 with h1 | h2
    · exact Nat.lt_succ_of_lt (hb e2 h1)
    · simp at h2
      subst h2
      exact Nat.lt_succ_self _
  · rw [insertView_pageViews, List.map_append]
    rw [List.nodup_append]
    refine ⟨hc, List.nodup_singleton _, ?_⟩
    intro a hamem hb2
    simp at hb2
    subst hb2
    rcases List.mem_map.mp hamem with ⟨d, hd, hid⟩
    have := hb d hd
    omega

theorem recordPageView_recInv {s : Store} (h : RecInv s) (now : Int) (p pt sid : String) :
    RecInv (recordPageView now p pt sid s) := by
  cases hrv : recentView s sid p with
  | some e =>
    by_cases ht : e.timestamp > now - DEDUP_WINDOW_MS
    · rw [recordPageView_of_hit hrv ht pt]
      exact h
    · rw [recordPageView_of_miss hrv ht pt]
      exact insertView_recInv h now p pt sid
  | none =>
    rw [recordPageView_of_none hrv pt]
    exact insertView_recInv h now p pt sid

theorem recInv_of_recordReachable {s : Store} (h : RecordReachable s) : RecInv s := by
  induction h with
  | init => exact ⟨rfl, fun e he => absurd he (List.not_mem_nil e), List.nodup_nil⟩
  | step now p pt sid hr ih => exact recordPageView_recInv ih now p pt sid

theorem contributed_eq {s : Store} (h : RecInv s) (sid : String) :
    contributed s sid = if sid ∈ sessionsOf s.pageViews then 1 else 0 := by
  unfold contributed
  rw [h.1, countP_map_list]
  have hcong : ∀ d ∈ firstEvents s.pageViews [],
      (s.pageViews.any (fun e => e.id == d.id && e.sessionId == sid))
        = (d.sessionId == sid) := by
    intro d hd
    have hdpv : d ∈ s.pageViews := (firstEvents_sublist s.pageViews []).subset hd
    by_cases hds : d.sessionId = sid
    · have h1 : s.pageViews.any (fun e => e.id == d.id && e.sessionId == sid) = true := by
        rw [List.any_eq_true]
        exact ⟨d, hdpv, by simp [hds]⟩
      rw [h1]
      simp [hds]
    · have h1 : s.pageViews.any (fun e => e.id == d.id && e.sessionId == sid) = false := by
        rw [List.any_eq_false]
        intro e he hp2
        simp only [Bool.and_eq_true, beq_iff_eq] at hp2
        have hedd : e = d := List.inj_on_of_nodup_map h.2.2 he hdpv hp2.1
        exact hds (hedd ▸ hp2.2)
      rw [h1]
      exact (beq_eq_false_iff_ne.mpr hds).symm
  rw [countP_congr_list hcong, countP_sid_firstEvents]
  simp

/-- C3: a `recordPageView` call enlarges the `uniqueVisitors` aggregate (by
the new event's id) exactly when the session had no prior stored event; in
every record-reachable state, a session with any stored event has contributed
exactly one event id to the aggregate, one with none has contributed none. -/
theorem uniqueVisitors_first_view_only {s : Store} (hreach : RecordReachable s)
    (now : Int) (p pt sid : String) :
    ((recordPageView now p pt sid s).aggUniqueVisitors =
        if sid ∈ sessionsOf s.pageViews then s.aggUniqueVisitors
        else s.aggUniqueVisitors ++ [s.nextId])
    ∧ contributed s sid = if sid ∈ sessionsOf s.pageViews then 1 else 0 := by
  have hinv := recInv_of_recordReachable hreach
  refine ⟨?_, contributed_eq hinv sid⟩
  cases hrv : recentView s sid p with
  | some e =>
    have hmem : sid ∈ sessionsOf s.pageViews := by
      rcases recentView_mem hrv with ⟨hm, hsid, _⟩
      show sid ∈ s.pageViews.map (·.sessionId)
      exact List.mem_map.mpr ⟨e, hm, hsid⟩
    by_cases ht : e.timestamp > now - DEDUP_WINDOW_MS
    · rw [recordPageView_of_hit hrv ht pt, if_pos hmem]
    · rw [recordPageView_of_miss hrv ht pt, insertView_aggU, if_pos hmem]
      have hnot : ¬ ((s.pageViews.find? (fun e2 => e2.sessionId == sid)).isNone = true) := by
        rw [isNew_iff]
        exact fun hno => hno hmem
      rw [if_neg hnot]
  | none =>
    rw [recordPageView_of_none hrv pt, insertView_aggU]
    by_cases hmem : sid ∈ sessionsOf s.pageViews
    · rw [if_pos hmem]
      have hnot : ¬ ((s.pageViews.find? (fun e2 => e2.sessionId == sid)).isNone = true) := by
        rw [isNew_iff]
        exact fun hno => hno hmem
      rw [if_neg hnot]
    · rw [if_neg hmem, if_pos ((isNew_iff s sid).mpr hmem), insertIfAbsent,
        if_neg (nextId_fresh_aggU hinv)]

/-- Witness for C3: after "s1" views "/a", a second view of a different path
"/b" leaves the aggregate unchanged, and "s1" has contributed exactly one
event. -/
theorem uniqueVisitors_first_view_only_witness :
    ((recordPageView 5 ("/b") ("post") ("s1")
        (recordPageView 0 ("/a") ("post") ("s1") Store.empty)).aggUniqueVisitors =
      (recordPageView 0 ("/a") ("post") ("s1") Store.empty).aggUniqueVisitors)
    ∧ contributed (recordPageView 0 ("/a") ("post") ("s1") Store.empty) ("s1") = 1 := by
  have h := uniqueVisitors_first_view_only
    (RecordReachable.step 0 ("/a") ("post") ("s1") RecordReachable.init)
    5 ("/b") ("post") ("s1")
  constructor
  · have h1 := h.1
    rw [if_pos (by decide)] at h1
    exact h1
  · have h2 := h.2
    rw [if_pos (by decide)] at h2
    exact h2
